import Mathlib

/-!
Verification of the `yesh` shell front-end (src/yesh.rs) against its
natural-language specification.

The Rust code is shallowly embedded: `i32` values become `Int`, `usize`
values become `Nat` (with an explicit two's-complement cast where the code
casts a signed value to `usize`), `Vec<WideChar>` / `Vec<ComplexChar>`
become `List Char` (display attributes carry no information relevant to any
claim), and code that can panic returns `Option` (with `none` marking the
panic).  The two wrapping loops in `rebuild_line_views` /
`rebuild_command_views` are do-while loops; they are embedded with a fuel
parameter that bounds the number of *additional* iterations.  Callers pass
the length of the buffer being wrapped, which suffices for every positive
window width, so the `remaining - width ≤ 0` guard decides the exit exactly
as the source's `break` does.
-/


/-- Rust `LineView` from yesh.rs: a slice `[offset, offset+width)` of scrollback
line `index`, drawn at absolute row `y`. -/
structure LineView where
  y : Int
  width : Int
  index : Nat
  offset : Nat
deriving DecidableEq, Repr, Inhabited

/-- Rust `CommandView` from yesh.rs: a slice `[offset, offset+width)` of the
command buffer, drawn at absolute row `y`. -/
structure CommandView where
  y : Int
  width : Int
  offset : Nat
deriving DecidableEq, Repr, Inhabited

/-- One iteration of the do-while loop in `Yesh::rebuild_line_views`
(yesh.rs lines 112-123): emit a view of width `min(columns, remaining)`,
advance `y`, `offset` and `remaining`, and stop once `remaining ≤ 0`.
`fuel` bounds the number of additional iterations; the fuel-0 case emits the
current iteration's view, which coincides with the source whenever the
caller supplies fuel of at least the line length and `columns ≥ 1`. -/
def lineViewsLoop (columns : Int) (index : Nat) : Nat → Int → Int → Nat → List LineView
  | 0, y, remaining, offset => [⟨y, min columns remaining, index, offset⟩]
  | fuel + 1, y, remaining, offset =>
    if remaining - min columns remaining ≤ 0 then
      [⟨y, min columns remaining, index, offset⟩]
    else
      ⟨y, min columns remaining, index, offset⟩ ::
        lineViewsLoop columns index fuel (y + 1) (remaining - min columns remaining)
          (offset + (min columns remaining).toNat)

/-- The outer loop of `Yesh::rebuild_line_views` (yesh.rs lines 104-125):
walk the scrollback lines in order, threading the absolute row counter `y`
and the enumeration index. -/
def rebuildLineViewsGo (columns : Int) : List (List Char) → Nat → Int → List LineView
  | [], _, _ => []
  | line :: rest, index, y =>
    lineViewsLoop columns index line.length y (line.length : Int) 0 ++
      rebuildLineViewsGo columns rest (index + 1)
        (y + (lineViewsLoop columns index line.length y (line.length : Int) 0).length)

/-- Rust `Yesh::rebuild_line_views` as a pure function of the scrollback lines
and the window width. -/
def rebuild_line_views (lines : List (List Char)) (columns : Int) : List LineView :=
  rebuildLineViewsGo columns lines 0 0

/-- The views that `rebuild_line_views` produces for the scrollback line at
position `i` (each `LineView` records its source line in `index`). -/
def lineViewsOf (lines : List (List Char)) (columns : Int) (i : Nat) : List LineView :=
  (rebuild_line_views lines columns).filter (fun v => v.index == i)

/-- One iteration of the do-while loop in `Yesh::rebuild_command_views`
(yesh.rs lines 134-151): the first emitted view's usable width is
`columns - prompt_len`, later views use the full `columns`.  Fuel plays the
same role as in `lineViewsLoop`. -/
def commandViewsLoop (columns : Int) (promptLen : Nat) :
    Nat → Bool → Int → Int → Nat → List CommandView
  | 0, isFirst, y, remaining, offset =>
    [⟨y, min remaining (if isFirst then columns - (promptLen : Int) else columns), offset⟩]
  | fuel + 1, isFirst, y, remaining, offset =>
    if remaining - min remaining (if isFirst then columns - (promptLen : Int) else columns) ≤ 0 then
      [⟨y, min remaining (if isFirst then columns - (promptLen : Int) else columns), offset⟩]
    else
      ⟨y, min remaining (if isFirst then columns - (promptLen : Int) else columns), offset⟩ ::
        commandViewsLoop columns promptLen fuel false (y + 1)
          (remaining - min remaining (if isFirst then columns - (promptLen : Int) else columns))
          (offset + (min remaining (if isFirst then columns - (promptLen : Int) else columns)).toNat)

/-- Rust `Yesh::rebuild_command_views` as a pure function: the starting row is
one past the last line view's row (or 0 when there are no line views),
mirroring yesh.rs line 130. -/
def rebuild_command_views (command : List Char) (promptLen : Nat) (columns : Int)
    (lineViews : List LineView) : List CommandView :=
  commandViewsLoop columns promptLen command.length true
    (match lineViews.getLast? with
     | some v => v.y + 1
     | none => 0)
    (command.length : Int) 0

/-- The views for one line are contiguous: the first offset is `o` and each
subsequent view starts where the previous one ended. -/
def contiguousFromB (o : Nat) : List LineView → Bool
  | [] => true
  | v :: rest => (v.offset == o) && contiguousFromB (o + v.width.toNat) rest

/-- The views occupy consecutive rows starting at `y`. -/
def rowsFromB (y : Int) : List LineView → Bool
  | [] => true
  | v :: rest => (v.y == y) && rowsFromB (y + 1) rest

/-- The views appear in strictly ascending row order. -/
def ascendingRows : List LineView → Bool
  | [] => true
  | [_] => true
  | a :: b :: rest => (decide (a.y < b.y)) && ascendingRows (b :: rest)

/-- The slice of line `L` described by view `v`: `L[offset, offset+width)`. -/
def sliceOf (L : List Char) (v : LineView) : List Char :=
  (L.drop v.offset).take v.width.toNat

/-- The `Yesh` state (yesh.rs lines 22-43), minus the ncurses handles and
display attributes, which no claim depends on.  `runningChild` abstracts
`Option<Child>` to whether a child is running; the child's pipe is supplied
per cycle through `Env`. -/
structure Yesh where
  windowLines : Int
  windowColumns : Int
  prompt : List Char
  command : List Char
  commandViews : List CommandView
  lines : List (List Char)
  lineViews : List LineView
  cursorX : Int
  cursorY : Int
  scrollOffset : Int
  controlCSemaphore : Bool
  shouldExit : Bool
  runningChild : Bool
deriving DecidableEq, Repr, Inhabited

/-- Replace the control-c semaphore value (used to state that the event
loop neither reads nor writes the flag except in the documented place). -/
def setSem (s : Yesh) (b : Bool) : Yesh := { s with controlCSemaphore := b }

/-- Rust `i32::clamp(lo, hi)` / `usize::clamp`.  Rust panics when `lo > hi`;
every use below has `lo ≤ hi` wherever a theorem exercises it. -/
def clampI (v lo hi : Int) : Int := max lo (min v hi)

/-- Rust `Vec::insert(index, a)`: panics (`none`) when `index > len`. -/
def vecInsert (v : List α) (index : Nat) (a : α) : Option (List α) :=
  if index ≤ v.length then some (v.take index ++ a :: v.drop index) else none

/-- Rust `Vec::remove(index)`: panics (`none`) when `index ≥ len`. -/
def vecRemove (v : List α) (index : Nat) : Option (List α) :=
  if index < v.length then some (v.take index ++ v.drop (index + 1)) else none

/-- Rust `char::is_control`: the Unicode Cc category,
U+0000-U+001F and U+007F-U+009F. -/
def charIsControl (c : Char) : Bool :=
  decide (c.toNat ≤ 0x1f) || (decide (0x7f ≤ c.toNat) && decide (c.toNat ≤ 0x9f))

/-- A child's stdout pipe: the bytes currently available for reading, and
the bytes the child will still write before closing the pipe. -/
structure ChildStdout where
  available : List Char
  future : List Char
deriving DecidableEq, Repr, Inhabited

/-- Rust `std::io::Read::read_to_string` on a pipe returns only at end of
stream, after the writer closes it, and delivers every byte: the ones
already available and the ones still to come.  Until then the call blocks. -/
def read_to_string (child : ChildStdout) : List Char :=
  child.available ++ child.future

/-- Modelled from the spec: a non-blocking drain "polls available bytes
without waiting for end-of-stream", i.e. returns exactly the bytes
currently available. -/
def nonblocking_drain (child : ChildStdout) : List Char :=
  child.available

/-- The navigation keys dispatched by `Yesh::process_key`
(yesh.rs lines 177-192). -/
inductive KeyEvent where
  | Backspace
  | DeleteCharacter
  | LeftArrow
  | RightArrow
  | UpArrow
  | DownArrow
  | ResizeEvent
  | Other
deriving DecidableEq, Repr

/-- One cycle's input: a key, a character, or none (`wget_wch` timed out or
failed). -/
inductive InputEvent where
  | key : KeyEvent → InputEvent
  | chr : Char → InputEvent
  | noInput : InputEvent
deriving DecidableEq, Repr

/-- The environment one `process_events` cycle observes: the input event,
the size `getmaxyx` reports on resize (lines, columns), the outcome of
`Command::spawn`, the child's stdout pipe, and whether `try_wait` reports
the child exited. -/
structure Env where
  input : InputEvent
  newSize : Int × Int
  spawnOk : Bool
  spawnErrMsg : List Char
  childStdout : ChildStdout
  childExited : Bool
deriving DecidableEq, Repr

/-- Rust `Yesh::rebuild_line_views` (state form, yesh.rs lines 104-125). -/
def Yesh.rebuildLineViews (s : Yesh) : Yesh :=
  { s with lineViews := rebuild_line_views s.lines s.windowColumns }

/-- Rust `Yesh::rebuild_command_views` (state form, yesh.rs lines 127-152). -/
def Yesh.rebuildCommandViews (s : Yesh) : Yesh :=
  { s with commandViews :=
      rebuild_command_views s.command s.prompt.length s.windowColumns s.lineViews }

/-- Rust `Yesh::focused_command_view_index` (yesh.rs lines 294-296). -/
def Yesh.focused_command_view_index (s : Yesh) : Option Nat :=
  s.commandViews.findIdx? (fun view => view.y == s.cursorY)

/-- Rust `Yesh::command_view_width` (yesh.rs lines 298-304).  The source indexes
`command_views[index]` unchecked; callers stay in bounds, so `getD` with a
default never actually falls back where the theorems exercise it. -/
def Yesh.command_view_width (s : Yesh) (index : Nat) : Int :=
  if index = 0 then (s.commandViews.getD index default).width + (s.prompt.length : Int)
  else (s.commandViews.getD index default).width

/-- Rust `Yesh::command_index_at_cursor` (yesh.rs lines 306-333).  `index as
usize` is the two's-complement cast, modelled by `% 2^64`; `clamp(0, len)`
on the resulting `usize` is `min len`.  The subtraction in
`command.len() - 1` is also on `usize` and is modelled with the same
release-build wrap semantics, `% 2^64`: with an empty command (reachable
only when the prompt width equals the window width) it wraps to
`usize::MAX` = 2^64 - 1, on which every caller's `Vec::remove` /
`Vec::insert` then panics (`none`); a debug build would already panic at
the subtraction itself, so in both build modes the cycle aborts. -/
def Yesh.command_index_at_cursor (s : Yesh) : Option Nat :=
  match s.focused_command_view_index with
  | none =>
    if s.commandViews.length = 0 then some 0
    else if s.cursorY > ((s.commandViews.map (fun view => view.y)).max?).getD 0 ∧
        s.command_view_width (s.commandViews.length - 1) = s.windowColumns then
      some ((((s.command.length : Int) - 1) % (2 : Int) ^ 64).toNat)
    else none
  | some view_index =>
    if view_index = 0 ∧ s.cursorX < (s.prompt.length : Int) then none
    else
      some (min (((((s.commandViews.getD view_index default).offset : Int) +
        (if view_index = 0 then s.cursorX - (s.prompt.length : Int) else s.cursorX))
          % (2 : Int) ^ 64).toNat) s.command.length)

/-- Rust `Yesh::focused_line_view` (yesh.rs lines 368-370). -/
def Yesh.focused_line_view (s : Yesh) : Option LineView :=
  s.lineViews.find? (fun view => view.y == s.cursorY)

/-- Rust `Yesh::is_cursor_on_command_prompt` (yesh.rs lines 358-366). -/
def Yesh.is_cursor_on_command_prompt (s : Yesh) : Prop :=
  if s.runningChild then False
  else if s.lineViews.length = 0 then True
  else s.cursorY > (s.lineViews.getLast?.getD default).y

instance (s : Yesh) : Decidable s.is_cursor_on_command_prompt := by
  unfold Yesh.is_cursor_on_command_prompt
  infer_instance

/-- Rust `Yesh::maximum_possible_y` (yesh.rs lines 469-480). -/
def Yesh.maximum_possible_y (s : Yesh) : Int :=
  let maximum_line_views_y :=
    if s.lineViews.length > 0 then (s.lineViews.getLast?.getD default).y else 0
  let maximum_command_views_y :=
    if s.commandViews.length > 0 then (s.commandViews.getLast?.getD default).y else 0
  if s.runningChild then maximum_line_views_y
  else if s.commandViews.length = 0 ∧ s.lineViews.length > 0 then maximum_line_views_y + 1
  else maximum_command_views_y + 1

/-- Rust `Yesh::is_y_on_screen` (yesh.rs lines 482-484). -/
def Yesh.is_y_on_screen (s : Yesh) (y : Int) : Prop :=
  y ≥ s.scrollOffset ∧ y - s.scrollOffset < s.windowLines

instance (s : Yesh) (y : Int) : Decidable (s.is_y_on_screen y) := by
  unfold Yesh.is_y_on_screen
  infer_instance

/-- Rust `Yesh::advance_cursor_down` (yesh.rs lines 260-266). -/
def Yesh.advance_cursor_down (s : Yesh) : Yesh :=
  let s1 := { s with cursorY := clampI (s.cursorY + 1) 0 s.maximum_possible_y }
  if ¬ s1.is_y_on_screen s1.cursorY then { s1 with scrollOffset := s1.scrollOffset + 1 }
  else s1

/-- Rust `Yesh::advance_cursor_up` (yesh.rs lines 277-283). -/
def Yesh.advance_cursor_up (s : Yesh) : Yesh :=
  let s1 := { s with cursorY := clampI (s.cursorY - 1) 0 s.maximum_possible_y }
  if ¬ s1.is_y_on_screen s1.cursorY then { s1 with scrollOffset := s1.scrollOffset - 1 }
  else s1

/-- Rust `Yesh::advance_cursor_left` (yesh.rs lines 268-275). -/
def Yesh.advance_cursor_left (s : Yesh) : Yesh :=
  let s1 := { s with cursorX := s.cursorX - 1 }
  if s1.cursorX < 0 ∧ s1.cursorY > 0 then
    Yesh.advance_cursor_up { s1 with cursorX := s1.windowColumns }
  else s1

/-- Rust `Yesh::advance_cursor_right` (yesh.rs lines 285-292). -/
def Yesh.advance_cursor_right (s : Yesh) : Yesh :=
  let s1 := { s with cursorX := s.cursorX + 1 }
  if s1.cursorX ≥ s1.windowColumns then
    { s1.advance_cursor_down with cursorX := 0 }
  else s1

/-- Rust `Yesh::delete_character_before_cursor` (yesh.rs lines 154-164). -/
def Yesh.delete_character_before_cursor (s : Yesh) : Option Yesh :=
  match s.command_index_at_cursor with
  | some index =>
    if index = 0 then some s
    else
      match vecRemove s.command (index - 1) with
      | some command =>
        some (Yesh.advance_cursor_left
          (Yesh.rebuildCommandViews { s with command := command }))
      | none => none
  | none => some s

/-- Rust `Yesh::delete_character_at_cursor` (yesh.rs lines 166-175).  Note the
source guards `index == 0` but not `index == command.len()`, so
`Vec::remove` can be called one past the end (a panic, `none`). -/
def Yesh.delete_character_at_cursor (s : Yesh) : Option Yesh :=
  match s.command_index_at_cursor with
  | some index =>
    if index = 0 then some s
    else
      match vecRemove s.command index with
      | some command =>
        some (Yesh.rebuildCommandViews { s with command := command })
      | none => none
  | none => some s

/-- Rust `Yesh::insert_character_in_command_at_cursor` (yesh.rs lines 335-339). -/
def Yesh.insert_character_in_command_at_cursor (s : Yesh) (character : Char) : Option Yesh :=
  match s.command_index_at_cursor with
  | some index =>
    (vecInsert s.command index character).map (fun command => { s with command := command })
  | none => some s

/-- The loop body of `parse_command` (yesh.rs lines 583-604): split on
whitespace (pushing the current token even when empty), stop at `#`, and
push a trailing non-empty token. -/
def parseCommandGo : List Char → List Char → List (List Char)
  | [], current => if current.length > 0 then [current] else []
  | c :: rest, current =>
    if c.isWhitespace then current :: parseCommandGo rest []
    else if c = '#' then (if current.length > 0 then [current] else [])
    else parseCommandGo rest (current ++ [c])

/-- Rust `parse_command` (yesh.rs lines 583-604). -/
def parse_command (command : List Char) : List (List Char) :=
  parseCommandGo command []

/-- The static banner the `info` builtin appends (yesh.rs lines 218-221). -/
def infoMessage : List Char :=
  ("    yesh  Copyright (C) 2023 bit69tream\n" ++
   "    This program comes with ABSOLUTELY NO WARRANTY;\n" ++
   "    This is free software, and you are welcome to redistribute it under certain conditions;\n" ++
   "    See <https://www.gnu.org/licenses/>").toList

/-- The loop body of `Yesh::append_to_lines` (yesh.rs lines 395-411):
split the string on newlines, pushing each completed line; a trailing
non-empty fragment becomes a final line. -/
def appendToLinesGo : List Char → List Char → List (List Char)
  | [], current => if current.length > 0 then [current] else []
  | c :: rest, current =>
    if c = '\n' then current :: appendToLinesGo rest []
    else appendToLinesGo rest (current ++ [c])

/-- Rust `Yesh::append_to_lines` (yesh.rs lines 395-411). -/
def Yesh.append_to_lines (s : Yesh) (string : List Char) : Yesh :=
  { s with lines := s.lines ++ appendToLinesGo string [] }

/-- Rust `Yesh::execute_command` (yesh.rs lines 194-246).  The spawn outcome
comes from the environment; display attributes are dropped, so the echoed
prompt line is `prompt ++ command`. -/
def Yesh.execute_command (s : Yesh) (env : Env) : Yesh :=
  if ¬ s.is_cursor_on_command_prompt then s
  else
    let prompt_line := s.prompt ++ s.command
    let parsed_command := parse_command s.command
    let s1 := { s with lines := s.lines ++ [prompt_line], command := [], commandViews := [] }
    let s2 :=
      if parsed_command.length > 0 then
        if parsed_command.getD 0 [] = "info".toList then
          s1.append_to_lines infoMessage
        else if parsed_command.getD 0 [] = "exit".toList then
          { s1 with shouldExit := true }
        else if env.spawnOk then
          { s1 with runningChild := true }
        else
          s1.append_to_lines ("yesh: ERROR: Failed to launch command: ".toList ++ env.spawnErrMsg)
      else s1
    s2.rebuildLineViews

/-- Rust `Yesh::process_control_character` (yesh.rs lines 248-258).  The source
calls `to_ascii_char().unwrap()`, which panics (`none`) for a control
character above 0x7F. -/
def Yesh.process_control_character (s : Yesh) (c : Char) (env : Env) : Option Yesh :=
  if c.toNat ≤ 0x7f then
    if c.toNat = 0x0a then some (s.execute_command env)
    else if c.toNat = 0x03 then some s
    else if c.toNat = 0x04 then s.delete_character_at_cursor
    else if c.toNat = 0x08 ∨ c.toNat = 0x7f then s.delete_character_before_cursor
    else some s
  else none

/-- Rust `Yesh::process_character` (yesh.rs lines 341-356). -/
def Yesh.process_character (s : Yesh) (c : Char) (env : Env) : Option Yesh :=
  if charIsControl c then s.process_control_character c env
  else if (s.focused_line_view).isNone then
    (s.insert_character_in_command_at_cursor c).map
      (fun t => (t.rebuildCommandViews).advance_cursor_right)
  else some s

/-- Rust `Yesh::handle_resize` (yesh.rs lines 98-102): `newSize` is the
(lines, columns) pair `getmaxyx` reports. -/
def Yesh.handle_resize (s : Yesh) (newSize : Int × Int) : Yesh :=
  Yesh.rebuildLineViews { s with windowLines := newSize.1, windowColumns := newSize.2 }

/-- Rust `Yesh::process_key` (yesh.rs lines 177-192). -/
def Yesh.process_key (s : Yesh) (k : KeyEvent) (env : Env) : Option Yesh :=
  match k with
  | KeyEvent.Backspace => s.delete_character_before_cursor
  | KeyEvent.DeleteCharacter => s.delete_character_at_cursor
  | KeyEvent.LeftArrow => some s.advance_cursor_left
  | KeyEvent.RightArrow => some s.advance_cursor_right
  | KeyEvent.UpArrow => some s.advance_cursor_up
  | KeyEvent.DownArrow => some s.advance_cursor_down
  | KeyEvent.ResizeEvent => some (s.handle_resize env.newSize)
  | KeyEvent.Other => some s

/-- Rust `Yesh::read_from_child` (yesh.rs lines 413-434): the drain is
`read_to_string`, i.e. a blocking read to end-of-stream. -/
def Yesh.read_from_child (s : Yesh) (child : ChildStdout) : Yesh :=
  let output_buffer := read_to_string child
  if output_buffer.length = 0 then s
  else Yesh.rebuildLineViews (s.append_to_lines output_buffer)

/-- Rust `Yesh::clamp_cursor` (yesh.rs lines 372-393).  `(columns - 1) as usize`
and `width as usize` are modelled with `Int.toNat`; `usize::clamp(0, m)` is
`min m`. -/
def Yesh.clamp_cursor (s : Yesh) : Yesh :=
  let maximum_possible_x : Nat := (s.windowColumns - 1).toNat
  let maximum_allowed_x : Nat :=
    min
      (if s.is_cursor_on_command_prompt then
        match s.focused_command_view_index with
        | some index =>
          if index = 0 then s.prompt.length + (s.commandViews.getD index default).width.toNat
          else (s.commandViews.getD index default).width.toNat
        | none => s.prompt.length
      else
        match s.focused_line_view with
        | some line_view => line_view.width.toNat
        | none => maximum_possible_x)
      maximum_possible_x
  { s with
    cursorX := clampI s.cursorX 0 (maximum_allowed_x : Int),
    cursorY := clampI s.cursorY 0 (s.windowLines + s.scrollOffset) }

/-- The tail of `Yesh::process_events` (yesh.rs lines 450-466), after the
input event was handled: drain the child if one is running, poll its exit
(`try_wait`), clamp the cursor, and report `should_exit`. -/
def Yesh.finish_cycle (s1 : Yesh) (env : Env) : Yesh × Bool :=
  let s2 := if s1.runningChild then s1.read_from_child env.childStdout else s1
  let s3 := if s2.runningChild ∧ env.childExited then { s2 with runningChild := false }
    else s2
  let s4 := s3.clamp_cursor
  (s4, s4.shouldExit)

/-- Rust `Yesh::process_events` (yesh.rs lines 436-467): read one input event
(keyboard first; the control-c flag is only consulted when no event was
available), then drain the child, then poll its exit, then clamp the
cursor, and report `should_exit`. -/
def Yesh.process_events (s : Yesh) (env : Env) : Option (Yesh × Bool) :=
  (match env.input with
   | InputEvent.key k => s.process_key k env
   | InputEvent.chr c => s.process_character c env
   | InputEvent.noInput =>
     if s.controlCSemaphore then s.process_control_character (Char.ofNat 0x03) env
     else some s).map
    (fun (s1 : Yesh) => s1.finish_cycle env)

/-- A default environment: no input, an idle 80x24 terminal, a successful
spawn, an empty child pipe, child not exited. -/
def envBase : Env := ⟨InputEvent.noInput, (24, 80), true, [], ⟨[], []⟩, false⟩

/-- Cursor past the last command row with the first row exactly filled:
prompt "% ", command "ab", width 4, views freshly rebuilt, cursor at row 1. -/
def s2state : Yesh :=
  ⟨24, 4, ['%', ' '], ['a', 'b'], [⟨0, 2, 0⟩], [], [], 0, 1, 0, false, false, false⟩

/-- Empty command buffer with the cursor on the prompt: prompt "% ",
views freshly rebuilt, cursor at column 2 of row 0. -/
def s3state : Yesh :=
  ⟨24, 80, ['%', ' '], [], [⟨0, 0, 0⟩], [], [], 2, 0, 0, false, false, false⟩

/-- Non-empty command "ab" with the cursor at the appended position
(column 4 = prompt + len), views freshly rebuilt. -/
def s4state : Yesh :=
  ⟨24, 80, ['%', ' '], ['a', 'b'], [⟨0, 2, 0⟩], [], [], 4, 0, 0, false, false, false⟩

/-- A state with a child process running and otherwise empty scrollback. -/
def s5state : Yesh :=
  ⟨24, 80, ['%', ' '], [], [], [], [], 2, 0, 0, false, false, true⟩

/-- Nine wrapped scrollback lines on a 10-row window, command prompt on row
9, cursor on the prompt, everything freshly rebuilt and the cursor visible. -/
def s7state : Yesh :=
  ⟨10, 10, ['%', ' '], [], [⟨9, 0, 0⟩],
   [['a'], ['a'], ['a'], ['a'], ['a'], ['a'], ['a'], ['a'], ['a']],
   [⟨0, 1, 0, 0⟩, ⟨1, 1, 1, 0⟩, ⟨2, 1, 2, 0⟩, ⟨3, 1, 3, 0⟩, ⟨4, 1, 4, 0⟩,
    ⟨5, 1, 5, 0⟩, ⟨6, 1, 6, 0⟩, ⟨7, 1, 7, 0⟩, ⟨8, 1, 8, 0⟩],
   2, 9, 0, false, false, false⟩

/-- An idle state used to witness the amended C7: empty scrollback and
command, cursor on the prompt. -/
def sW : Yesh :=
  ⟨24, 80, ['%', ' '], [], [], [], [], 2, 0, 0, false, false, false⟩

/-- A state exercising the in-view branch of the forward mapping: command
"a", prompt "% ", width 80, views rebuilt, cursor at column 3 of row 0. -/
def s2w : Yesh :=
  ⟨24, 80, ['%', ' '], ['a'], [⟨0, 1, 0⟩], [], [], 3, 0, 0, false, false, false⟩

/-- The underflow corner of the forward mapping: a 2-column terminal whose
prompt "% " fills the whole window, empty command, views freshly rebuilt
(one zero-width view on row 0), cursor on row 1 — past the last command
row, with the last command row's display width equal to the window width. -/
def s2e : Yesh :=
  ⟨24, 2, ['%', ' '], [], [⟨0, 0, 0⟩], [], [], 0, 1, 0, false, false, false⟩

/-- A state whose cancellation flag is raised, otherwise idle. -/
def s9state : Yesh :=
  ⟨24, 80, ['%', ' '], [], [], [], [], 2, 0, 0, true, false, false⟩

theorem lineViewsLoop_spec (c : Int) (idx : Nat) :
    ∀ (fuel : Nat) (y remaining : Int) (offset : Nat),
      1 ≤ c → 0 ≤ remaining → remaining.toNat ≤ fuel + 1 →
      contiguousFromB offset (lineViewsLoop c idx fuel y remaining offset) = true ∧
      rowsFromB y (lineViewsLoop c idx fuel y remaining offset) = true ∧
      ((lineViewsLoop c idx fuel y remaining offset).map (fun v => v.width)).sum = remaining ∧
      ((lineViewsLoop c idx fuel y remaining offset).map (fun v => v.width.toNat)).sum
        = remaining.toNat := by
  intro fuel
  induction fuel with
  | zero =>
    intro y r o hc hr hf
    have hr1 : r ≤ 1 := by omega
    have hmin : min c r = r := min_eq_right (by omega)
    simp [lineViewsLoop, hmin, contiguousFromB, rowsFromB]
  | succ f ih =>
    intro y r o hc hr hf
    by_cases hstop : r - min c r ≤ 0
    · have hmin : min c r = r := by
        have h1 : min c r ≤ r := min_le_right c r
        omega
      simp [lineViewsLoop, if_pos hstop, hmin, contiguousFromB, rowsFromB]
    · have hcr : min c r = c := by
        rcases min_choice c r with h | h
        · exact h
        · have := min_le_left c r
          omega
      have hrec := ih (y + 1) (r - min c r) (o + (min c r).toNat) hc (by omega)
        (by rw [hcr]; omega)
      simp only [lineViewsLoop, if_neg hstop]
      refine ⟨?_, ?_, ?_, ?_⟩
      · simp [contiguousFromB, hrec.1]
      · simp [rowsFromB, hrec.2.1]
      · simp only [List.map_cons, List.sum_cons, hrec.2.2.1]
        omega
      · simp only [List.map_cons, List.sum_cons, hrec.2.2.2]
        rw [hcr]
        omega

theorem lineViewsLoop_index (c : Int) (idx : Nat) :
    ∀ (fuel : Nat) (y remaining : Int) (offset : Nat),
      ∀ v ∈ lineViewsLoop c idx fuel y remaining offset, v.index = idx := by
  intro fuel
  induction fuel with
  | zero =>
    intro y r o v hv
    have hv' : v = ⟨y, min c r, idx, o⟩ := by simpa [lineViewsLoop] using hv
    rw [hv']
  | succ f ih =>
    intro y r o v hv
    by_cases hstop : r - min c r ≤ 0
    · have hv' : v = ⟨y, min c r, idx, o⟩ := by
        simp only [lineViewsLoop] at hv
        rw [if_pos hstop] at hv
        simpa using hv
      rw [hv']
    · simp only [lineViewsLoop, if_neg hstop, List.mem_cons] at hv
      rcases hv with hv | hv
      · rw [hv]
      · exact ih _ _ _ v hv

theorem rebuildLineViewsGo_index_ge (c : Int) :
    ∀ (ls : List (List Char)) (k : Nat) (y : Int),
      ∀ v ∈ rebuildLineViewsGo c ls k y, k ≤ v.index := by
  intro ls
  induction ls with
  | nil => intro k y v hv; simp [rebuildLineViewsGo] at hv
  | cons L rest ih =>
    intro k y v hv
    simp only [rebuildLineViewsGo, List.mem_append] at hv
    rcases hv with hv | hv
    · exact le_of_eq (lineViewsLoop_index c k _ _ _ _ v hv).symm
    · exact Nat.le_of_succ_le (ih (k + 1) _ v hv)

theorem rebuildLineViewsGo_filter (c : Int) :
    ∀ (ls : List (List Char)) (i : Nat) (L : List Char) (k : Nat) (y : Int),
      ls.get? i = some L →
      ∃ y0, (rebuildLineViewsGo c ls k y).filter (fun v => v.index == k + i) =
        lineViewsLoop c (k + i) L.length y0 (L.length : Int) 0 := by
  intro ls
  induction ls with
  | nil => intro i L k y h; simp at h
  | cons L0 rest ih =>
    intro i L k y h
    cases i with
    | zero =>
      have hL : L0 = L := by simpa using h
      subst hL
      refine ⟨y, ?_⟩
      simp only [rebuildLineViewsGo, List.filter_append, Nat.add_zero]
      have h1 : (lineViewsLoop c k L0.length y (L0.length : Int) 0).filter
          (fun v => v.index == k) = lineViewsLoop c k L0.length y (L0.length : Int) 0 := by
        apply List.filter_eq_self.mpr
        intro v hv
        simp [lineViewsLoop_index c k _ _ _ _ v hv]
      have h2 : (rebuildLineViewsGo c rest (k + 1)
          (y + (lineViewsLoop c k L0.length y (L0.length : Int) 0).length)).filter
          (fun v => v.index == k) = [] := by
        apply List.filter_eq_nil_iff.mpr
        intro v hv
        have := rebuildLineViewsGo_index_ge c rest (k + 1) _ v hv
        simp
        omega
      rw [h1, h2, List.append_nil]
    | succ j =>
      have h' : rest.get? j = some L := by simpa using h
      obtain ⟨y0, hy0⟩ := ih j L (k + 1) (y + (lineViewsLoop c k L0.length y (L0.length : Int) 0).length) h'
      refine ⟨y0, ?_⟩
      simp only [rebuildLineViewsGo, List.filter_append]
      have h1 : (lineViewsLoop c k L0.length y (L0.length : Int) 0).filter
          (fun v => v.index == k + (j + 1)) = [] := by
        apply List.filter_eq_nil_iff.mpr
        intro v hv
        have := lineViewsLoop_index c k _ _ _ _ v hv
        simp
        omega
      have harith : k + (j + 1) = (k + 1) + j := by omega
      rw [h1, List.nil_append, harith, hy0]

theorem rowsFromB_ascending :
    ∀ (vs : List LineView) (y : Int), rowsFromB y vs = true → ascendingRows vs = true := by
  intro vs
  induction vs with
  | nil => intro y _; rfl
  | cons a t ih =>
    intro y h
    cases t with
    | nil => rfl
    | cons b r =>
      simp only [rowsFromB, Bool.and_eq_true, beq_iff_eq] at h
      obtain ⟨ha, hb, hr⟩ := h
      simp only [ascendingRows, Bool.and_eq_true, decide_eq_true_eq]
      refine ⟨by omega, ih (y + 1) ?_⟩
      simp only [rowsFromB, Bool.and_eq_true, beq_iff_eq]
      exact ⟨hb, hr⟩

theorem contiguous_flatten (L : List Char) :
    ∀ (vs : List LineView) (o : Nat),
      contiguousFromB o vs = true →
      (vs.map (fun v => v.width.toNat)).sum = L.length - o →
      o ≤ L.length →
      (vs.map (sliceOf L)).flatten = L.drop o := by
  intro vs
  induction vs with
  | nil =>
    intro o _ hsum ho
    simp only [List.map_nil, List.flatten_nil]
    have : o = L.length := by simp at hsum; omega
    simp [this]
  | cons v t ih =>
    intro o hc hsum ho
    simp only [contiguousFromB, Bool.and_eq_true, beq_iff_eq] at hc
    obtain ⟨hvo, hct⟩ := hc
    simp only [List.map_cons, List.sum_cons] at hsum
    have hw : v.width.toNat ≤ L.length - o := by omega
    have hrec := ih (o + v.width.toNat) hct (by omega) (by omega)
    simp only [List.map_cons, List.flatten_cons, hrec, sliceOf, hvo]
    have hdd : L.drop (o + v.width.toNat) = (L.drop o).drop v.width.toNat := by
      rw [List.drop_drop, Nat.add_comm]
    rw [hdd, List.take_append_drop]

/-- C1: For every scrollback line L and every window width W > 0, the
LineViews that rebuild_line_views produces for L are contiguous (each
view's offset equals the previous view's offset plus its width, starting at
0), appear in ascending row order, have widths summing to len(L), and
slicing L by [offset, offset+width) for each view in order reconstructs L
exactly. -/
theorem C1_line_views_round_trip (lines : List (List Char)) (W : Int) (i : Nat) (L : List Char)
    (hW : 1 ≤ W) (hL : lines.get? i = some L) :
    contiguousFromB 0 (lineViewsOf lines W i) = true ∧
    ascendingRows (lineViewsOf lines W i) = true ∧
    ((lineViewsOf lines W i).map (fun v => v.width)).sum = (L.length : Int) ∧
    ((lineViewsOf lines W i).map (sliceOf L)).flatten = L := by
  obtain ⟨y0, hy0⟩ := rebuildLineViewsGo_filter W lines i L 0 0 hL
  have hfilter : lineViewsOf lines W i =
      lineViewsLoop W i L.length y0 (L.length : Int) 0 := by
    have : lineViewsOf lines W i =
        (rebuildLineViewsGo W lines 0 0).filter (fun v => v.index == 0 + i) := by
      simp [lineViewsOf, rebuild_line_views]
    rw [this, hy0]
    simp
  have hspec := lineViewsLoop_spec W i L.length y0 (L.length : Int) 0 hW
    (by omega) (by omega)
  rw [hfilter]
  refine ⟨hspec.1, rowsFromB_ascending _ y0 hspec.2.1, hspec.2.2.1, ?_⟩
  have := contiguous_flatten L (lineViewsLoop W i L.length y0 (L.length : Int) 0) 0
    hspec.1 (by rw [hspec.2.2.2]; omega) (by omega)
  simpa using this

/-- Witness for C1 at the concrete line "abc" wrapped at width 2. -/
theorem C1_witness :
    (1 : Int) ≤ 2 ∧ ([['a', 'b', 'c']] : List (List Char)).get? 0 = some ['a', 'b', 'c'] ∧
    (contiguousFromB 0 (lineViewsOf [['a', 'b', 'c']] 2 0) = true ∧
     ascendingRows (lineViewsOf [['a', 'b', 'c']] 2 0) = true ∧
     ((lineViewsOf [['a', 'b', 'c']] 2 0).map (fun v => v.width)).sum
       = ((['a', 'b', 'c'] : List Char).length : Int) ∧
     ((lineViewsOf [['a', 'b', 'c']] 2 0).map (sliceOf ['a', 'b', 'c'])).flatten
       = ['a', 'b', 'c']) :=
  ⟨by decide, by rfl, C1_line_views_round_trip [['a', 'b', 'c']] 2 0 ['a', 'b', 'c']
    (by decide) (by rfl)⟩

/-- Counterexample for C6: a zero-length scrollback line yields ONE
LineView of width 0 (the source's loop is a do-while and always pushes a
first view), not zero views, and it consumes a screen row: the following
line is pushed down to row 1. -/
theorem C6_counterexample :
    lineViewsOf [[], ['a']] 5 0 = [⟨0, 0, 0, 0⟩] ∧
    lineViewsOf [[], ['a']] 5 1 = [⟨1, 1, 1, 0⟩] := by decide

/-- C6 (amended): for every window width W > 0, a zero-length scrollback
line contributes exactly one LineView, of width 0 and offset 0 (thereby
consuming one screen row). -/
theorem C6_amended (lines : List (List Char)) (W : Int) (i : Nat)
    (hW : 1 ≤ W) (hL : lines.get? i = some ([] : List Char)) :
    ∃ y0, lineViewsOf lines W i = [⟨y0, 0, i, 0⟩] := by
  obtain ⟨y0, hy0⟩ := rebuildLineViewsGo_filter W lines i [] 0 0 hL
  refine ⟨y0, ?_⟩
  have h1 : lineViewsOf lines W i = lineViewsLoop W i 0 y0 0 0 := by
    have h2 : lineViewsOf lines W i =
        (rebuildLineViewsGo W lines 0 0).filter (fun v => v.index == 0 + i) := by
      simp [lineViewsOf, rebuild_line_views]
    rw [h2, hy0]
    simp
  rw [h1]
  have hmin : min W (0 : Int) = 0 := min_eq_right (by omega)
  simp [lineViewsLoop, hmin]

/-- Witness for C6 (amended) at a concrete empty line. -/
theorem C6_witness :
    (1 : Int) ≤ 5 ∧ ([[], ['a', 'b']] : List (List Char)).get? 0 = some [] ∧
    (∃ y0, lineViewsOf [[], ['a', 'b']] 5 0 = [⟨y0, 0, 0, 0⟩]) :=
  ⟨by decide, by rfl, C6_amended [[], ['a', 'b']] 5 0 (by decide) (by rfl)⟩

theorem commandViewsLoop_false_width (c : Int) (p : Nat) :
    ∀ (fuel : Nat) (y remaining : Int) (offset : Nat),
      ∀ v ∈ commandViewsLoop c p fuel false y remaining offset, v.width ≤ c := by
  intro fuel
  induction fuel with
  | zero =>
    intro y r o v hv
    have hv' : v = ⟨y, min r c, o⟩ := by simpa [commandViewsLoop] using hv
    rw [hv']
    exact min_le_right r c
  | succ f ih =>
    intro y r o v hv
    by_cases hstop : r - min r (if false then c - (p : Int) else c) ≤ 0
    · have hv' : v = ⟨y, min r (if false then c - (p : Int) else c), o⟩ := by
        simp only [commandViewsLoop] at hv
        rw [if_pos hstop] at hv
        simpa using hv
      rw [hv']
      simp only [if_neg Bool.false_ne_true]
      exact min_le_right r c
    · simp only [commandViewsLoop] at hv
      rw [if_neg hstop] at hv
      simp only [List.mem_cons] at hv
      rcases hv with hv | hv
      · rw [hv]
        simp only [if_neg Bool.false_ne_true]
        exact min_le_right r c
      · exact ih _ _ _ v hv

theorem commandViewsLoop_shape (c : Int) (p : Nat) (fuel : Nat) (isFirst : Bool)
    (y remaining : Int) (offset : Nat) :
    ∃ t, commandViewsLoop c p fuel isFirst y remaining offset
        = ⟨y, min remaining (if isFirst then c - (p : Int) else c), offset⟩ :: t ∧
      ∀ v ∈ t, v.width ≤ c := by
  cases fuel with
  | zero => exact ⟨[], rfl, by simp⟩
  | succ f =>
    by_cases hstop : remaining - min remaining (if isFirst then c - (p : Int) else c) ≤ 0
    · refine ⟨[], ?_, by simp⟩
      simp only [commandViewsLoop]
      rw [if_pos hstop]
    · refine ⟨commandViewsLoop c p f false (y + 1)
        (remaining - min remaining (if isFirst then c - (p : Int) else c))
        (offset + (min remaining (if isFirst then c - (p : Int) else c)).toNat), ?_, ?_⟩
      · simp only [commandViewsLoop]
        rw [if_neg hstop]
      · intro v hv
        exact commandViewsLoop_false_width c p f _ _ _ v hv

/-- C8: For every command buffer and window width W greater than the prompt
width, rebuild_command_views gives the first emitted view a usable width of
at most window_width - prompt_width and every subsequent view at most the
full window_width, and the first command view's row is exactly one past the
last line view's row (or row 0 when there are no line views). -/
theorem C8_command_view_widths (command : List Char) (prompt : List Char) (W : Int)
    (lineViews : List LineView) (_hWP : (prompt.length : Int) < W) :
    ∃ w0 t,
      rebuild_command_views command prompt.length W lineViews
        = ⟨(match lineViews.getLast? with | some v => v.y + 1 | none => 0), w0, 0⟩ :: t ∧
      w0 ≤ W - (prompt.length : Int) ∧
      ∀ v ∈ t, v.width ≤ W := by
  obtain ⟨t, ht, hw⟩ := commandViewsLoop_shape W prompt.length command.length true
    (match lineViews.getLast? with | some v => v.y + 1 | none => 0) (command.length : Int) 0
  refine ⟨min (command.length : Int) (W - (prompt.length : Int)), t, ?_, ?_, hw⟩
  · simp only [if_pos rfl] at ht
    simpa [rebuild_command_views] using ht
  · exact min_le_right _ _

/-- Witness for C8 at command "abc", prompt "% ", width 4, no scrollback. -/
theorem C8_witness :
    ((['%', ' '] : List Char).length : Int) < 4 ∧
    (∃ w0 t,
      rebuild_command_views ['a', 'b', 'c'] (['%', ' '] : List Char).length 4 []
        = ⟨0, w0, 0⟩ :: t ∧
      w0 ≤ 4 - ((['%', ' '] : List Char).length : Int) ∧
      ∀ v ∈ t, v.width ≤ 4) :=
  ⟨by decide, C8_command_view_widths ['a', 'b', 'c'] ['%', ' '] 4 [] (by decide)⟩

/-- C10: For every command buffer, including the empty one,
rebuild_command_views emits at least one CommandView (an empty command
buffer, when the prompt fits in the window, yields exactly one view of
width zero), so the command-view list is never empty after a rebuild. -/
theorem C10_command_views_nonempty (command : List Char) (promptLen : Nat) (W : Int)
    (lineViews : List LineView) :
    rebuild_command_views command promptLen W lineViews ≠ [] ∧
    (command = [] → (promptLen : Int) ≤ W →
      rebuild_command_views command promptLen W lineViews
        = [⟨(match lineViews.getLast? with | some v => v.y + 1 | none => 0), 0, 0⟩]) := by
  constructor
  · obtain ⟨t, ht, _⟩ := commandViewsLoop_shape W promptLen command.length true
      (match lineViews.getLast? with | some v => v.y + 1 | none => 0) (command.length : Int) 0
    simp only [rebuild_command_views]
    rw [ht]
    simp
  · intro hcmd hPW
    subst hcmd
    have hmin : min (0 : Int) (W - (promptLen : Int)) = 0 := min_eq_left (by omega)
    simp [rebuild_command_views, commandViewsLoop, hmin]

/-- Witness for C10 at the empty command buffer, prompt width 2, window 80. -/
theorem C10_witness :
    rebuild_command_views [] 2 80 [] ≠ [] ∧
    rebuild_command_views [] 2 80 [] = [⟨0, 0, 0⟩] :=
  ⟨(C10_command_views_nonempty [] 2 80 []).1,
   (C10_command_views_nonempty [] 2 80 []).2 rfl (by decide)⟩

/-- Counterexample for C2: with the command "ab" exactly filling the first
command row (prompt 2 + width 2 = window width 4) and the cursor on the row
below, the cursor's row matches no command view and is past the last
command row, yet `command_index_at_cursor` returns `some 1` =
`len(command) - 1`, not the appended position `len(command)` = 2 the claim
specifies. -/
theorem C2_counterexample :
    s2state.commandViews = rebuild_command_views s2state.command s2state.prompt.length
      s2state.windowColumns s2state.lineViews ∧
    s2state.focused_command_view_index = none ∧
    s2state.cursorY > ((s2state.commandViews.map (fun v => v.y)).max?).getD 0 ∧
    s2state.command_index_at_cursor = some 1 ∧
    s2state.command.length = 2 ∧
    s2state.command_index_at_cursor ≠ some s2state.command.length := by decide

/-- C2 (amended): with freshly rebuilt command views, the forward mapping
behaves as follows.  If the cursor's row matches no command view and the
cursor is past the last command row, the mapping returns `len(command) - 1`
when the last command row's display width equals the window width and no
offset otherwise — except that with an empty command in that configuration
(reachable only when the prompt width equals the window width) the `usize`
subtraction underflows: the mapping yields `usize::MAX` = 2^64 - 1 and the
delete-at-cursor handler panics.  If the cursor's row is the first command
row and its column is within the prompt region, the mapping returns no
offset; otherwise it returns view.offset plus the column (minus the prompt
width on the first row), clamped into [0, len(command)]. -/
theorem C2_forward_mapping (s : Yesh)
    (hviews : s.commandViews = rebuild_command_views s.command s.prompt.length
      s.windowColumns s.lineViews) :
    (s.focused_command_view_index = none →
      s.cursorY > ((s.commandViews.map (fun v => v.y)).max?).getD 0 →
      (s.command ≠ [] → s.command.length < 2 ^ 64 →
        s.command_index_at_cursor =
          (if s.command_view_width (s.commandViews.length - 1) = s.windowColumns
           then some (s.command.length - 1) else none)) ∧
      (s.command = [] →
        s.command_view_width (s.commandViews.length - 1) = s.windowColumns →
        s.command_index_at_cursor = some (2 ^ 64 - 1) ∧
        s.delete_character_at_cursor = none)) ∧
    (s.focused_command_view_index = some 0 → s.cursorX < (s.prompt.length : Int) →
      s.command_index_at_cursor = none) ∧
    (∀ i, s.focused_command_view_index = some i →
      (i = 0 → (s.prompt.length : Int) ≤ s.cursorX) →
      0 ≤ s.cursorX →
      ((s.commandViews.getD i default).offset : Int) + s.cursorX < 2 ^ 64 →
      s.command_index_at_cursor =
        some (min (((s.commandViews.getD i default).offset : Int) +
          (if i = 0 then s.cursorX - (s.prompt.length : Int) else s.cursorX)).toNat
          s.command.length)) := by
  have hne : s.commandViews ≠ [] := by
    obtain ⟨t, ht, _⟩ := commandViewsLoop_shape s.windowColumns s.prompt.length
      s.command.length true
      (match s.lineViews.getLast? with | some v => v.y + 1 | none => 0)
      (s.command.length : Int) 0
    rw [hviews]
    simp only [rebuild_command_views]
    rw [ht]
    simp
  refine ⟨?_, ?_, ?_⟩
  · intro hfoc hy
    constructor
    · intro hcne hclen
      unfold Yesh.command_index_at_cursor
      rw [hfoc]
      rw [if_neg (by simpa using hne)]
      by_cases hw : s.command_view_width (s.commandViews.length - 1) = s.windowColumns
      · rw [if_pos ⟨hy, hw⟩, if_pos hw]
        refine congrArg some ?_
        have hpow : (2 : Int) ^ 64 = 18446744073709551616 := by norm_num
        have hpn : (2 : Nat) ^ 64 = 18446744073709551616 := by norm_num
        rw [hpn] at hclen
        have hlen1 : 0 < s.command.length := List.length_pos.mpr hcne
        have hmod : ((s.command.length : Int) - 1) % (2 : Int) ^ 64
            = (s.command.length : Int) - 1 := by
          rw [hpow]
          apply Int.emod_eq_of_lt <;> omega
        rw [hmod]
        omega
      · rw [if_neg (fun h => hw h.2), if_neg hw]
    · intro hcemp hw
      have hval : s.command_index_at_cursor = some (2 ^ 64 - 1) := by
        unfold Yesh.command_index_at_cursor
        rw [hfoc]
        dsimp only
        rw [if_neg (by simpa using hne), if_pos ⟨hy, hw⟩, hcemp]
        decide
      refine ⟨hval, ?_⟩
      unfold Yesh.delete_character_at_cursor
      rw [hval]
      dsimp only
      rw [if_neg (by decide : ¬ ((2 : Nat) ^ 64 - 1 = 0)), hcemp,
        show vecRemove ([] : List Char) (2 ^ 64 - 1) = none from rfl]
  · intro hfoc hx
    unfold Yesh.command_index_at_cursor
    rw [hfoc]
    exact if_pos ⟨rfl, hx⟩
  · intro i hfoc hpx hx0 hrange
    have hcond : ¬ (i = 0 ∧ s.cursorX < (s.prompt.length : Int)) := by
      rintro ⟨hi0, hlt⟩
      exact absurd (hpx hi0) (not_le.mpr hlt)
    have hred : s.command_index_at_cursor =
        if i = 0 ∧ s.cursorX < (s.prompt.length : Int) then none
        else
          some (min (((((s.commandViews.getD i default).offset : Int) +
            (if i = 0 then s.cursorX - (s.prompt.length : Int) else s.cursorX))
              % (2 : Int) ^ 64).toNat) s.command.length) := by
      unfold Yesh.command_index_at_cursor
      rw [hfoc]
    rw [hred, if_neg hcond]
    have hpow : (2 : Int) ^ 64 = 18446744073709551616 := by norm_num
    have hbounds : 0 ≤ ((s.commandViews.getD i default).offset : Int) +
        (if i = 0 then s.cursorX - (s.prompt.length : Int) else s.cursorX) ∧
        ((s.commandViews.getD i default).offset : Int) +
        (if i = 0 then s.cursorX - (s.prompt.length : Int) else s.cursorX) < (2 : Int) ^ 64 := by
      rw [hpow] at hrange ⊢
      by_cases hi0 : i = 0
      · have hp := hpx hi0
        rw [if_pos hi0]
        omega
      · rw [if_neg hi0]
        omega
    have hmod : (((s.commandViews.getD i default).offset : Int) +
        (if i = 0 then s.cursorX - (s.prompt.length : Int) else s.cursorX)) % (2 : Int) ^ 64 =
        ((s.commandViews.getD i default).offset : Int) +
        (if i = 0 then s.cursorX - (s.prompt.length : Int) else s.cursorX) :=
      Int.emod_eq_of_lt hbounds.1 hbounds.2
    rw [hmod]

/-- Witness for C2 (amended): the in-view branch at `s2w` (offset 0 +
column 3 - prompt 2 = 1), the past-last-row branch at `s2state` (returns
len - 1 = 1), and the empty-command underflow corner at `s2e` (the mapping
yields usize::MAX and the delete handler panics). -/
theorem C2_witness :
    (s2w.commandViews = rebuild_command_views s2w.command s2w.prompt.length
      s2w.windowColumns s2w.lineViews ∧
     s2w.focused_command_view_index = some 0 ∧
     s2w.command_index_at_cursor = some 1) ∧
    (s2state.command ≠ [] ∧ s2state.command.length < 2 ^ 64 ∧
     s2state.command_index_at_cursor =
       (if s2state.command_view_width (s2state.commandViews.length - 1)
           = s2state.windowColumns
        then some (s2state.command.length - 1) else none)) ∧
    (s2e.command = [] ∧
     s2e.command_index_at_cursor = some (2 ^ 64 - 1) ∧
     s2e.delete_character_at_cursor = none) := by
  refine ⟨⟨by decide, by decide, ?_⟩, ⟨by decide, by decide, ?_⟩, ⟨by decide, ?_, ?_⟩⟩
  · have h := (C2_forward_mapping s2w (by decide)).2.2 0 (by decide)
      (fun _ => by decide) (by decide) (by decide)
    rw [h]
    decide
  · exact ((C2_forward_mapping s2state (by decide)).1 (by decide) (by decide)).1
      (by decide) (by decide)
  · exact (((C2_forward_mapping s2e (by decide)).1 (by decide) (by decide)).2
      (by decide) (by decide)).1
  · exact (((C2_forward_mapping s2e (by decide)).1 (by decide) (by decide)).2
      (by decide) (by decide)).2

/-- C3 divergence: at an empty command buffer with the cursor on the
prompt, every delete event — ctrl-d (EOT), DEL (what the backspace key
produces), BS, and the DeleteCharacter/Backspace navigation keys — is a
no-op: the cycle reports `should_exit = false` and the state is unchanged,
instead of signalling session termination as the claim specifies. -/
theorem C3_divergence :
    (s3state.process_events { envBase with input := InputEvent.chr (Char.ofNat 0x04) }).map
      (fun r => r.2) = some false ∧
    (s3state.process_events { envBase with input := InputEvent.chr (Char.ofNat 0x7f) }).map
      (fun r => r.2) = some false ∧
    (s3state.process_events { envBase with input := InputEvent.chr (Char.ofNat 0x08) }).map
      (fun r => r.2) = some false ∧
    (s3state.process_events { envBase with input := InputEvent.key KeyEvent.DeleteCharacter }).map
      (fun r => r.2) = some false ∧
    (s3state.process_events { envBase with input := InputEvent.key KeyEvent.Backspace }).map
      (fun r => r.2) = some false ∧
    (s3state.process_events { envBase with input := InputEvent.chr (Char.ofNat 0x04) }).map
      (fun r => r.1) = some s3state := by decide

/-- C4 divergence: with the non-empty command "ab" and the cursor mapped to
the appended offset len(command) = 2, delete-at-cursor calls
`Vec::remove(2)` on a 2-element vector and panics (modelled `none`) instead
of being a no-op; the whole event cycle dies with it. -/
theorem C4_divergence :
    s4state.command_index_at_cursor = some s4state.command.length ∧
    s4state.command.length = 2 ∧
    s4state.delete_character_at_cursor = none ∧
    s4state.process_events { envBase with input := InputEvent.chr (Char.ofNat 0x04) } = none ∧
    s4state.process_events { envBase with input := InputEvent.key KeyEvent.DeleteCharacter }
      = none := by decide

/-- C5 divergence: the drain step is `read_to_string`, which waits for
end-of-stream and returns every byte the child will ever write, not just
the available ones: on a pipe with nothing available and one future byte it
does not return empty-handed, and a full cycle ingests the future byte. -/
theorem C5_divergence :
    read_to_string ⟨['a'], ['b']⟩ ≠ nonblocking_drain ⟨['a'], ['b']⟩ ∧
    s5state.read_from_child ⟨[], ['b']⟩ ≠ s5state ∧
    (s5state.process_events { envBase with childStdout := ⟨[], ['b']⟩ }).map
      (fun r => r.1.lines) = some [['b']] := by decide

/-- C7 counterexample: `s7state` is consistent (views freshly rebuilt,
cursor visible in the 10-row window).  One event cycle carrying a resize to
3 rows ends, after the final clamp, with cursor.row = 3 =
scroll_offset + window_height: the visibility invariant
scroll_offset ≤ cursor.row < scroll_offset + window_height is violated. -/
theorem C7_counterexample :
    s7state.lineViews = rebuild_line_views s7state.lines s7state.windowColumns ∧
    s7state.commandViews = rebuild_command_views s7state.command s7state.prompt.length
      s7state.windowColumns s7state.lineViews ∧
    (s7state.scrollOffset ≤ s7state.cursorY ∧
      s7state.cursorY < s7state.scrollOffset + s7state.windowLines) ∧
    (s7state.process_events
        { envBase with input := InputEvent.key KeyEvent.ResizeEvent, newSize := (3, 10) }).map
      (fun r => decide (r.1.scrollOffset ≤ r.1.cursorY ∧
        r.1.cursorY < r.1.scrollOffset + r.1.windowLines)) = some false := by decide

theorem process_events_clamp (s : Yesh) (env : Env) (r : Yesh × Bool)
    (h : s.process_events env = some r) : ∃ t, r.1 = Yesh.clamp_cursor t := by
  obtain ⟨s1, _, hr⟩ := Option.map_eq_some'.mp h
  rw [← hr]
  exact ⟨_, rfl⟩

/-- C7 (amended): after every completed event-processing cycle the final
clamp only establishes 0 ≤ cursor.row ≤ scroll_offset + window_height
(upper bound inclusive, lower bound 0 rather than scroll_offset), provided
window_height + scroll_offset is nonnegative; the strict visibility
invariant can fail after a shrinking resize. -/
theorem C7_amended (s : Yesh) (env : Env) (r : Yesh × Bool)
    (h : s.process_events env = some r)
    (hnn : 0 ≤ r.1.windowLines + r.1.scrollOffset) :
    0 ≤ r.1.cursorY ∧ r.1.cursorY ≤ r.1.scrollOffset + r.1.windowLines := by
  obtain ⟨t, ht⟩ := process_events_clamp s env r h
  rw [ht] at hnn ⊢
  have hnn' : 0 ≤ t.windowLines + t.scrollOffset := hnn
  constructor
  · exact le_max_left _ _
  · have h1 : clampI t.cursorY 0 (t.windowLines + t.scrollOffset)
        ≤ t.windowLines + t.scrollOffset :=
      max_le hnn' (min_le_right _ _)
    exact h1.trans_eq (add_comm _ _)

/-- Witness for C7 (amended): an idle cycle on the quiescent state `sW`. -/
theorem C7_witness :
    sW.process_events envBase = some (sW, false) ∧
    0 ≤ sW.windowLines + sW.scrollOffset ∧
    (0 ≤ sW.cursorY ∧ sW.cursorY ≤ sW.scrollOffset + sW.windowLines) :=
  ⟨by decide, by decide, C7_amended sW envBase (sW, false) (by decide) (by decide)⟩

theorem sem_rebuildCommandViews (s : Yesh) (b : Bool) :
    (setSem s b).rebuildCommandViews = setSem s.rebuildCommandViews b := rfl

theorem sem_clamp (s : Yesh) (b : Bool) :
    (setSem s b).clamp_cursor = setSem s.clamp_cursor b := rfl

theorem sem_read (s : Yesh) (b : Bool) (child : ChildStdout) :
    (setSem s b).read_from_child child = setSem (s.read_from_child child) b := by
  simp only [Yesh.read_from_child, setSem]
  split_ifs <;> rfl

theorem sem_advance_down (s : Yesh) (b : Bool) :
    (setSem s b).advance_cursor_down = setSem s.advance_cursor_down b := by
  simp only [Yesh.advance_cursor_down, Yesh.is_y_on_screen, Yesh.maximum_possible_y, clampI, setSem]
  split_ifs <;> rfl

theorem sem_advance_up (s : Yesh) (b : Bool) :
    (setSem s b).advance_cursor_up = setSem s.advance_cursor_up b := by
  simp only [Yesh.advance_cursor_up, Yesh.is_y_on_screen, Yesh.maximum_possible_y, clampI, setSem]
  split_ifs <;> rfl

theorem sem_advance_left (s : Yesh) (b : Bool) :
    (setSem s b).advance_cursor_left = setSem s.advance_cursor_left b := by
  simp only [Yesh.advance_cursor_left, Yesh.advance_cursor_up, Yesh.is_y_on_screen,
    Yesh.maximum_possible_y, clampI, setSem]
  split_ifs <;> rfl

theorem sem_advance_right (s : Yesh) (b : Bool) :
    (setSem s b).advance_cursor_right = setSem s.advance_cursor_right b := by
  simp only [Yesh.advance_cursor_right, Yesh.advance_cursor_down, Yesh.is_y_on_screen,
    Yesh.maximum_possible_y, clampI, setSem]
  split_ifs <;> rfl

theorem sem_execute (s : Yesh) (b : Bool) (env : Env) :
    (setSem s b).execute_command env = setSem (s.execute_command env) b := by
  simp only [Yesh.execute_command, Yesh.is_cursor_on_command_prompt, setSem]
  split_ifs <;> rfl

theorem sem_finish (t : Yesh) (b : Bool) (env : Env) :
    (setSem t b).finish_cycle env = (setSem (t.finish_cycle env).1 b, (t.finish_cycle env).2) := by
  simp only [Yesh.finish_cycle]
  rw [show (setSem t b).runningChild = t.runningChild from rfl]
  by_cases hr : t.runningChild = true
  · rw [if_pos hr, if_pos hr, sem_read,
      show (setSem (t.read_from_child env.childStdout) b).runningChild
        = (t.read_from_child env.childStdout).runningChild from rfl]
    by_cases he : (t.read_from_child env.childStdout).runningChild = true ∧ env.childExited = true
    · rw [if_pos he, if_pos he,
        show ({ setSem (t.read_from_child env.childStdout) b with runningChild := false } : Yesh)
          = setSem { t.read_from_child env.childStdout with runningChild := false } b from rfl,
        sem_clamp]
      rfl
    · rw [if_neg he, if_neg he, sem_clamp]
      rfl
  · rw [if_neg hr, if_neg hr,
      show (setSem t b).runningChild = t.runningChild from rfl]
    by_cases he : t.runningChild = true ∧ env.childExited = true
    · exact absurd he.1 hr
    · rw [if_neg he, if_neg he, sem_clamp]
      rfl

theorem sem_delete_at (s : Yesh) (b : Bool) :
    (setSem s b).delete_character_at_cursor
      = (s.delete_character_at_cursor).map (fun t => setSem t b) := by
  unfold Yesh.delete_character_at_cursor
  rw [show (setSem s b).command_index_at_cursor = s.command_index_at_cursor from rfl]
  cases s.command_index_at_cursor with
  | none => rfl
  | some index =>
    dsimp only
    by_cases h0 : index = 0
    · rw [if_pos h0, if_pos h0]
      rfl
    · rw [if_neg h0, if_neg h0,
        show (setSem s b).command = s.command from rfl]
      cases vecRemove s.command index with
      | none => rfl
      | some command => rfl

theorem sem_delete_before (s : Yesh) (b : Bool) :
    (setSem s b).delete_character_before_cursor
      = (s.delete_character_before_cursor).map (fun t => setSem t b) := by
  unfold Yesh.delete_character_before_cursor
  rw [show (setSem s b).command_index_at_cursor = s.command_index_at_cursor from rfl]
  cases s.command_index_at_cursor with
  | none => rfl
  | some index =>
    dsimp only
    by_cases h0 : index = 0
    · rw [if_pos h0, if_pos h0]
      rfl
    · rw [if_neg h0, if_neg h0,
        show (setSem s b).command = s.command from rfl]
      cases vecRemove s.command (index - 1) with
      | none => rfl
      | some command =>
        dsimp only
        simp only [Option.map_some']
        exact congrArg some (by
          rw [show ({ setSem s b with command := command } : Yesh)
              = setSem { s with command := command } b from rfl,
            sem_rebuildCommandViews, sem_advance_left])

theorem sem_insert (s : Yesh) (b : Bool) (c : Char) :
    (setSem s b).insert_character_in_command_at_cursor c
      = (s.insert_character_in_command_at_cursor c).map (fun t => setSem t b) := by
  unfold Yesh.insert_character_in_command_at_cursor
  rw [show (setSem s b).command_index_at_cursor = s.command_index_at_cursor from rfl]
  cases s.command_index_at_cursor with
  | none => rfl
  | some index =>
    dsimp only
    rw [show (setSem s b).command = s.command from rfl]
    cases vecInsert s.command index c with
    | none => rfl
    | some command => rfl

theorem sem_pcc (s : Yesh) (c : Char) (env : Env) (b : Bool) :
    (setSem s b).process_control_character c env
      = (s.process_control_character c env).map (fun t => setSem t b) := by
  unfold Yesh.process_control_character
  by_cases h1 : c.toNat ≤ 0x7f
  · rw [if_pos h1, if_pos h1]
    by_cases h2 : c.toNat = 0x0a
    · rw [if_pos h2, if_pos h2, sem_execute]
      rfl
    · rw [if_neg h2, if_neg h2]
      by_cases h3 : c.toNat = 0x03
      · rw [if_pos h3, if_pos h3]
        rfl
      · rw [if_neg h3, if_neg h3]
        by_cases h4 : c.toNat = 0x04
        · rw [if_pos h4, if_pos h4]
          exact sem_delete_at s b
        · rw [if_neg h4, if_neg h4]
          by_cases h5 : c.toNat = 0x08 ∨ c.toNat = 0x7f
          · rw [if_pos h5, if_pos h5]
            exact sem_delete_before s b
          · rw [if_neg h5, if_neg h5]
            rfl
  · rw [if_neg h1, if_neg h1]
    rfl

theorem sem_process_character (s : Yesh) (c : Char) (env : Env) (b : Bool) :
    (setSem s b).process_character c env
      = (s.process_character c env).map (fun t => setSem t b) := by
  unfold Yesh.process_character
  by_cases h1 : charIsControl c = true
  · rw [if_pos h1, if_pos h1]
    exact sem_pcc s c env b
  · rw [if_neg h1, if_neg h1,
      show (setSem s b).focused_line_view = s.focused_line_view from rfl]
    by_cases h2 : (s.focused_line_view).isNone = true
    · rw [if_pos h2, if_pos h2, sem_insert]
      cases s.insert_character_in_command_at_cursor c with
      | none => rfl
      | some t =>
        simp only [Option.map_some']
        rw [sem_rebuildCommandViews, sem_advance_right]
    · rw [if_neg h2, if_neg h2]
      rfl

theorem sem_process_key (s : Yesh) (k : KeyEvent) (env : Env) (b : Bool) :
    (setSem s b).process_key k env = (s.process_key k env).map (fun t => setSem t b) := by
  cases k with
  | Backspace => exact sem_delete_before s b
  | DeleteCharacter => exact sem_delete_at s b
  | LeftArrow => simp only [Yesh.process_key, sem_advance_left, Option.map_some']
  | RightArrow => simp only [Yesh.process_key, sem_advance_right, Option.map_some']
  | UpArrow => simp only [Yesh.process_key, sem_advance_up, Option.map_some']
  | DownArrow => simp only [Yesh.process_key, sem_advance_down, Option.map_some']
  | ResizeEvent => rfl
  | Other => rfl

theorem sem_process_events_input (s : Yesh) (env : Env) (b : Bool)
    (h : env.input ≠ InputEvent.noInput) :
    (setSem s b).process_events env
      = (s.process_events env).map (fun r => (setSem r.1 b, r.2)) := by
  unfold Yesh.process_events
  cases hin : env.input with
  | noInput => exact absurd hin h
  | key k =>
    dsimp only
    rw [sem_process_key]
    cases s.process_key k env with
    | none => rfl
    | some s1 =>
      simp only [Option.map_some']
      rw [sem_finish]
  | chr c =>
    dsimp only
    rw [sem_process_character]
    cases s.process_character c env with
    | none => rfl
    | some s1 =>
      simp only [Option.map_some']
      rw [sem_finish]

theorem read_from_child_sem (s : Yesh) (child : ChildStdout) :
    (s.read_from_child child).controlCSemaphore = s.controlCSemaphore := by
  simp only [Yesh.read_from_child]
  split <;> rfl

theorem finish_cycle_sem (t : Yesh) (env : Env) :
    ((t.finish_cycle env).1).controlCSemaphore = t.controlCSemaphore := by
  simp only [Yesh.finish_cycle]
  by_cases hr : t.runningChild = true
  · rw [if_pos hr]
    by_cases he : (t.read_from_child env.childStdout).runningChild = true ∧ env.childExited = true
    · rw [if_pos he]
      exact read_from_child_sem t env.childStdout
    · rw [if_neg he]
      exact read_from_child_sem t env.childStdout
  · rw [if_neg hr]
    by_cases he : t.runningChild = true ∧ env.childExited = true
    · exact absurd he.1 hr
    · rw [if_neg he]
      rfl

/-- C9 counterexample: a cycle with no input available acts on the raised
flag, but the resulting state still has the flag SET: it is neither cleared
nor consumed, so it will be re-observed on every later no-input cycle,
contrary to the claim's "the flag is cleared or consumed so it is not
re-observed on later cycles". -/
theorem C9_counterexample :
    s9state.controlCSemaphore = true ∧
    s9state.process_events envBase = some (s9state, false) ∧
    (s9state.process_events envBase).map (fun r => r.1.controlCSemaphore) ≠ some false := by
  decide

/-- C9 (amended): acting on the raised cancellation flag (the ETX handler)
is a no-op at the shell level — the state, including any running child, is
untouched; the event loop never writes the flag, so it is NOT cleared or
consumed and is re-observed (harmlessly) on later no-input cycles; and
keyboard input takes priority within a cycle: with an input event present
the cycle is independent of the flag, which is merely carried through. -/
theorem C9_cancellation (s : Yesh) (env : Env) (b : Bool) :
    s.process_control_character (Char.ofNat 0x03) env = some s ∧
    (∀ r, s.process_events env = some r → r.1.controlCSemaphore = s.controlCSemaphore) ∧
    (env.input ≠ InputEvent.noInput →
      (setSem s b).process_events env
        = (s.process_events env).map (fun r => (setSem r.1 b, r.2))) := by
  refine ⟨rfl, ?_, sem_process_events_input s env b⟩
  intro r hr
  by_cases hni : env.input = InputEvent.noInput
  · have hd : s.process_events env = some (s.finish_cycle env) := by
      unfold Yesh.process_events
      rw [hni]
      dsimp only
      by_cases hs : s.controlCSemaphore = true
      · rw [if_pos hs]
        rfl
      · rw [if_neg hs]
        rfl
    rw [hd] at hr
    rw [← Option.some.inj hr]
    exact finish_cycle_sem s env
  · have hcom := sem_process_events_input s env s.controlCSemaphore hni
    rw [show setSem s s.controlCSemaphore = s from rfl, hr] at hcom
    simp only [Option.map_some'] at hcom
    have h1 := congrArg (fun p : Yesh × Bool => p.1) (Option.some.inj hcom)
    exact (congrArg Yesh.controlCSemaphore h1).trans rfl

/-- Witness for C9 (amended) at a concrete raised-flag state and a cycle
carrying a key event. -/
theorem C9_witness :
    ({ envBase with input := InputEvent.key KeyEvent.Other } : Env).input
      ≠ InputEvent.noInput ∧
    s9state.process_control_character (Char.ofNat 0x03)
      { envBase with input := InputEvent.key KeyEvent.Other } = some s9state ∧
    s9state.process_events { envBase with input := InputEvent.key KeyEvent.Other }
      = some (s9state, false) ∧
    (s9state, (false : Bool)).1.controlCSemaphore = s9state.controlCSemaphore ∧
    (setSem s9state false).process_events { envBase with input := InputEvent.key KeyEvent.Other }
      = (s9state.process_events { envBase with input := InputEvent.key KeyEvent.Other }).map
        (fun r => (setSem r.1 false, r.2)) :=
  ⟨by decide,
   (C9_cancellation s9state { envBase with input := InputEvent.key KeyEvent.Other } false).1,
   by decide,
   (C9_cancellation s9state { envBase with input := InputEvent.key KeyEvent.Other } false).2.1
     (s9state, false) (by decide),
   (C9_cancellation s9state { envBase with input := InputEvent.key KeyEvent.Other } false).2.2
     (by decide)⟩
